import Mathlib

/-!
Verification development for the crank tree-reconciliation engine.

Each section shallowly embeds one part of the TypeScript source
(src/src/index.ts, with the variant implementation in src/unnamed/part_000
noted where it differs) and proves the properties claimed of it.  Promises
are modelled operationally: a pending promise is an identifier, settlement
is an explicit event, and `.then` continuations become state transitions.
-/

set_option autoImplicit false

/-! ### Association-list helpers

JavaScript objects and `Map`s are modelled as ordered association lists:
`lookupA` is property read / `Map.get`, `setA` is assignment / `Map.set`
(replace in place, append when absent), `eraseA` is `Map.delete`. -/

def lookupA {κ α : Type} [DecidableEq κ] : List (κ × α) → κ → Option α
  | [], _ => none
  | (k, v) :: rest, key => if k = key then some v else lookupA rest key

def setA {κ α : Type} [DecidableEq κ] : List (κ × α) → κ → α → List (κ × α)
  | [], key, v => [(key, v)]
  | (k, w) :: rest, key, v =>
    if k = key then (k, v) :: rest else (k, w) :: setA rest key v

def eraseA {κ α : Type} [DecidableEq κ] : List (κ × α) → κ → List (κ × α)
  | [], _ => []
  | (k, v) :: rest, key => if k = key then rest else (k, v) :: eraseA rest key

theorem lookupA_setA_self {κ α : Type} [DecidableEq κ]
    (l : List (κ × α)) (key : κ) (v : α) : lookupA (setA l key v) key = some v := by
  induction l with
  | nil => simp [setA, lookupA]
  | cons p rest ih =>
    by_cases h : p.1 = key
    · simp [setA, lookupA, h]
    · simp [setA, lookupA, h, ih]

theorem lookupA_setA_ne {κ α : Type} [DecidableEq κ]
    (l : List (κ × α)) (key name : κ) (v : α) (h : name ≠ key) :
    lookupA (setA l key v) name = lookupA l name := by
  induction l with
  | nil => simp [setA, lookupA, Ne.symm h]
  | cons p rest ih =>
    by_cases hp : p.1 = key
    · have hpn : p.1 ≠ name := by rw [hp]; exact Ne.symm h
      simp [setA, lookupA, hp, hpn, Ne.symm h]
    · simp only [setA, if_neg hp, lookupA]
      by_cases hn : p.1 = name
      · simp [hn]
      · simp [hn, ih]

/-! ### Element construction: `createElement`

Model of `createElement` (src/src/index.ts lines 115-157).  Property values
are an opaque universe `PVal`; functions and plain objects are represented
by identifiers.  `props` is the (possibly absent) second argument; the list
`children` holds the variadic arguments after it, in argument order. -/

inductive PVal where
  | nullV
  | func (n : Nat)
  | str (s : String)
  | num (n : Int)
  | boolV (b : Bool)
  | obj (n : Nat)
  deriving DecidableEq

inductive PropVal where
  | single (v : PVal)
  | list (vs : List PVal)
  deriving DecidableEq

/-- Key extraction (lines 129-131): the key is taken only when the
`crank-key` entry is present and not null. -/
def extractKey (props : List (String × PVal)) : Option PVal :=
  match lookupA props "crank-key" with
  | some v => if v = PVal.nullV then none else some v
  | none => none

/-- Ref extraction (lines 133-135): the ref is taken only when the
`crank-ref` entry is a function. -/
def extractRef (props : List (String × PVal)) : Option Nat :=
  match lookupA props "crank-ref" with
  | some (PVal.func n) => some n
  | _ => none

/-- The `for key in props` copy loop (lines 137-141): every enumerable entry
except `crank-key` and `crank-ref` is copied into the fresh props object. -/
def stripReserved : List (String × PVal) → List (String × PropVal)
  | [] => []
  | (k, v) :: rest =>
    if k ≠ "crank-key" ∧ k ≠ "crank-ref" then (k, PropVal.single v) :: stripReserved rest
    else stripReserved rest

structure MElement where
  tag : Nat
  props : List (String × PropVal)
  key : Option PVal
  ref : Option Nat
  deriving DecidableEq

/-- Model of `createElement` (lines 115-157).  When more than one child
argument follows `props`, the argument-order array is assigned to
`props.children` (lines 144-151); when exactly one follows, that argument
itself is assigned (lines 152-154). -/
def createElement (tag : Nat) (props : Option (List (String × PVal)))
    (children : List PVal) : MElement :=
  let key := match props with | some ps => extractKey ps | none => none
  let ref := match props with | some ps => extractRef ps | none => none
  let props1 := match props with | some ps => stripReserved ps | none => []
  let props2 :=
    if children.length > 1 then setA props1 "children" (PropVal.list children)
    else
      match children with
      | [c] => setA props1 "children" (PropVal.single c)
      | _ => props1
  { tag := tag, props := props2, key := key, ref := ref }

theorem lookupA_stripReserved_key (ps : List (String × PVal)) :
    lookupA (stripReserved ps) "crank-key" = none := by
  induction ps with
  | nil => rfl
  | cons p rest ih =>
    obtain ⟨k, v⟩ := p
    by_cases h : k ≠ "crank-key" ∧ k ≠ "crank-ref"
    · simpa [stripReserved, h, lookupA, h.1] using ih
    · simpa [stripReserved, h] using ih

theorem lookupA_stripReserved_ref (ps : List (String × PVal)) :
    lookupA (stripReserved ps) "crank-ref" = none := by
  induction ps with
  | nil => rfl
  | cons p rest ih =>
    obtain ⟨k, v⟩ := p
    by_cases h : k ≠ "crank-key" ∧ k ≠ "crank-ref"
    · simpa [stripReserved, h, lookupA, h.2] using ih
    · simpa [stripReserved, h] using ih

theorem lookupA_stripReserved_ne (ps : List (String × PVal)) (name : String)
    (h1 : name ≠ "crank-key") (h2 : name ≠ "crank-ref") :
    lookupA (stripReserved ps) name = (lookupA ps name).map PropVal.single := by
  induction ps with
  | nil => rfl
  | cons p rest ih =>
    obtain ⟨k, v⟩ := p
    by_cases h : k ≠ "crank-key" ∧ k ≠ "crank-ref"
    · by_cases hn : k = name
      · simp [stripReserved, h, lookupA, hn, h1, h2]
      · simp [stripReserved, h, lookupA, hn, ih]
    · have hn : k ≠ name := by
        rcases not_and_or.mp h with hx | hx
        · rw [not_not.mp hx]; exact Ne.symm h1
        · rw [not_not.mp hx]; exact Ne.symm h2
      simp [stripReserved, h, lookupA, hn, ih]

/-- **C8.** Reserved-prop stripping and child collection in `createElement`:
the returned props object holds exactly the enumerable entries of the input
props minus `crank-key` and `crank-ref`, which instead feed the element's
`key` and `ref` fields (under the source's non-null / is-function guards);
with more than one child argument `props.children` is the argument-order
array, and with exactly one it is that argument itself. -/
theorem C8_createElement_reserved_props (tag : Nat) (ps : List (String × PVal))
    (children : List PVal) :
    (lookupA (createElement tag (some ps) children).props "crank-key" = none) ∧
    (lookupA (createElement tag (some ps) children).props "crank-ref" = none) ∧
    (∀ name, name ≠ "crank-key" → name ≠ "crank-ref" → name ≠ "children" →
      lookupA (createElement tag (some ps) children).props name
        = (lookupA ps name).map PropVal.single) ∧
    (children = [] → (createElement tag (some ps) children).props = stripReserved ps) ∧
    (children.length > 1 →
      lookupA (createElement tag (some ps) children).props "children"
        = some (PropVal.list children)) ∧
    (∀ c, children = [c] →
      lookupA (createElement tag (some ps) children).props "children"
        = some (PropVal.single c)) ∧
    (createElement tag (some ps) children).key = extractKey ps ∧
    (createElement tag (some ps) children).ref = extractRef ps := by
  refine ⟨?_, ?_, ?_, ?_, ?_, ?_, rfl, rfl⟩
  · show lookupA (createElement tag (some ps) children).props "crank-key" = none
    simp only [createElement]
    split
    · rw [lookupA_setA_ne _ _ _ _ (by decide)]
      exact lookupA_stripReserved_key ps
    · split
      · rw [lookupA_setA_ne _ _ _ _ (by decide)]
        exact lookupA_stripReserved_key ps
      · exact lookupA_stripReserved_key ps
  · show lookupA (createElement tag (some ps) children).props "crank-ref" = none
    simp only [createElement]
    split
    · rw [lookupA_setA_ne _ _ _ _ (by decide)]
      exact lookupA_stripReserved_ref ps
    · split
      · rw [lookupA_setA_ne _ _ _ _ (by decide)]
        exact lookupA_stripReserved_ref ps
      · exact lookupA_stripReserved_ref ps
  · intro name h1 h2 h3
    simp only [createElement]
    split
    · rw [lookupA_setA_ne _ _ _ _ h3]
      exact lookupA_stripReserved_ne ps name h1 h2
    · split
      · rw [lookupA_setA_ne _ _ _ _ h3]
        exact lookupA_stripReserved_ne ps name h1 h2
      · exact lookupA_stripReserved_ne ps name h1 h2
  · intro h
    subst h
    rfl
  · intro h
    simp only [createElement, if_pos h]
    exact lookupA_setA_self _ _ _
  · intro c h
    subst h
    simp only [createElement]
    norm_num
    exact lookupA_setA_self _ _ _

theorem C8_createElement_reserved_props_witness :
    lookupA (createElement 7 (some [("a", PVal.num 1), ("crank-key", PVal.str "k"),
        ("crank-ref", PVal.func 3)]) [PVal.str "x", PVal.str "y"]).props "crank-key" = none ∧
    lookupA (createElement 7 (some [("a", PVal.num 1), ("crank-key", PVal.str "k"),
        ("crank-ref", PVal.func 3)]) [PVal.str "x", PVal.str "y"]).props "a"
      = some (PropVal.single (PVal.num 1)) ∧
    lookupA (createElement 7 (some [("a", PVal.num 1), ("crank-key", PVal.str "k"),
        ("crank-ref", PVal.func 3)]) [PVal.str "x", PVal.str "y"]).props "children"
      = some (PropVal.list [PVal.str "x", PVal.str "y"]) := by
  have h := C8_createElement_reserved_props 7
    [("a", PVal.num 1), ("crank-key", PVal.str "k"), ("crank-ref", PVal.func 3)]
    [PVal.str "x", PVal.str "y"]
  exact ⟨h.1, by
    have := h.2.2.1 "a" (by decide) (by decide) (by decide)
    simpa using this, h.2.2.2.2.1 (by decide)⟩

/-! ### Error propagation: the `catch` chain

Model of `ParentNode.catch` (src/src/index.ts lines 626-632) and
`ComponentNode.catch` (lines 1119-1161); the variant implementation's
`handle` (src/unnamed/part_000 lines 845-895) has the same delegation
structure.  A node is abstracted to the fields the delegation logic reads,
and a node's position is its ancestor chain, the node itself first. -/

structure HNode where
  isComponent : Bool
  hasIterator : Bool
  hasThrow : Bool
  finished : Bool
  deriving DecidableEq

/-- A node catches an error exactly when `ComponentNode.catch` does not fall
through to `super.catch`: its iterator exists, exposes `throw`, and the
component is not finished (lines 1120-1126). -/
def canCatch (n : HNode) : Bool :=
  n.isComponent && n.hasIterator && n.hasThrow && !n.finished

inductive CatchResult (E : Type) where
  /-- The error was passed to the generator of the ancestor at this depth via
  `iterator.throw`, and the resulting child value is reconciled as a normal
  update (`updateChildren(iteration.value)`, lines 1134-1160). -/
  | delivered (depth : Nat) (err : E)
  /-- The error reached a node with no parent and was re-raised to the host
  environment (`throw reason`, lines 627-629). -/
  | raised (err : E)
  deriving DecidableEq

/-- The `catch` delegation over the ancestor chain (self first): a catching
component absorbs the error; otherwise the unchanged error goes to the
parent; an empty chain (no parent left) re-raises. -/
def catchChain {E : Type} : List HNode → E → CatchResult E
  | [], err => CatchResult.raised err
  | n :: rest, err =>
    if canCatch n then CatchResult.delivered 0 err
    else
      match catchChain rest err with
      | CatchResult.delivered d e => CatchResult.delivered (d + 1) e
      | CatchResult.raised e => CatchResult.raised e

/-- **C4.** Error propagation chain: `catch` delivers the error to the first
ancestor-or-self component whose live iterator exposes `throw` (all closer
nodes being non-catching), reconciling its result as a normal update;
otherwise the unchanged error is delegated upward, and it is re-raised to
the host environment exactly when no node in the chain can catch it — the
only case in which the error escapes the tree. -/
theorem C4_catch_propagation {E : Type} (chain : List HNode) (err : E) :
    (catchChain chain err = CatchResult.raised err ↔
      ∀ n ∈ chain, canCatch n = false) ∧
    (∀ d, catchChain chain err = CatchResult.delivered d err →
      ∃ h : d < chain.length, canCatch (chain.get ⟨d, h⟩) = true ∧
        ∀ i (hi : i < d), canCatch (chain.get ⟨i, Nat.lt_trans hi h⟩) = false) ∧
    ((∃ d, catchChain chain err = CatchResult.delivered d err) ∨
      catchChain chain err = CatchResult.raised err) := by
  induction chain with
  | nil =>
    refine ⟨by simp [catchChain], ?_, Or.inr rfl⟩
    intro d hd
    simp [catchChain] at hd
  | cons n rest ih =>
    by_cases hc : canCatch n
    · refine ⟨?_, ?_, Or.inl ⟨0, by simp [catchChain, hc]⟩⟩
      · simp [catchChain, hc]
      · intro d hd
        simp only [catchChain, if_pos hc] at hd
        cases hd
        exact ⟨by simp, by simpa using hc, by omega⟩
    · have hstep : catchChain (n :: rest) err =
          match catchChain rest err with
          | CatchResult.delivered d e => CatchResult.delivered (d + 1) e
          | CatchResult.raised e => CatchResult.raised e := by
        simp [catchChain, hc]
      refine ⟨?_, ?_, ?_⟩
      · rw [hstep]
        rcases ih.2.2 with ⟨d, hd⟩ | hr
        · rw [hd]
          simp only [List.mem_cons]
          constructor
          · intro hx; cases hx
          · intro hall
            have : catchChain rest err = CatchResult.raised err :=
              ih.1.mpr (fun m hm => hall m (Or.inr hm))
            rw [this] at hd
            cases hd
        · rw [hr]
          simp only [List.mem_cons]
          constructor
          · intro _ m hm
            rcases hm with hm | hm
            · subst hm; simpa using hc
            · exact (ih.1.mp hr) m hm
          · intro _; trivial
      · intro d hd
        rw [hstep] at hd
        rcases ih.2.2 with ⟨d0, hd0⟩ | hr
        · rw [hd0] at hd
          cases hd
          obtain ⟨hlt, hcat, hbefore⟩ := ih.2.1 d0 hd0
          refine ⟨by simpa using Nat.succ_lt_succ hlt, by simpa using hcat, ?_⟩
          intro i hi
          cases i with
          | zero => simpa using hc
          | succ j =>
            have hj : j < d0 := by omega
            simpa using hbefore j hj
        · rw [hr] at hd
          cases hd
      · rw [hstep]
        rcases ih.2.2 with ⟨d0, hd0⟩ | hr
        · rw [hd0]; exact Or.inl ⟨d0 + 1, rfl⟩
        · rw [hr]; exact Or.inr rfl

theorem C4_catch_propagation_witness :
    ∃ h : 1 < ([⟨false, false, false, false⟩,
        ⟨true, true, true, false⟩, ⟨true, true, true, false⟩] : List HNode).length,
      canCatch (([⟨false, false, false, false⟩, ⟨true, true, true, false⟩,
          ⟨true, true, true, false⟩] : List HNode).get ⟨1, h⟩) = true ∧
      ∀ i (hi : i < 1),
        canCatch (([⟨false, false, false, false⟩, ⟨true, true, true, false⟩,
            ⟨true, true, true, false⟩] : List HNode).get ⟨i, Nat.lt_trans hi h⟩) = false :=
  (C4_catch_propagation [⟨false, false, false, false⟩, ⟨true, true, true, false⟩,
      ⟨true, true, true, false⟩] (7 : Nat)).2.1 1 (by decide)

/-! ### Retained-node values and `commitChildren`

Model of `ParentNode.commitChildren` (src/src/index.ts lines 526-605).  A
retained node is reduced to the fields that method reads: tag, `internal`,
committed `value` (a backend value `T`, a string, an ordered sequence, or
undefined), the dirty/moved/copied flags and the `dirtyStart` hint, plus
the `alternate` chain, which is stored flattened (nearest alternate
first) — the source walks `child.alternate` links to the end of the chain
and processes that node (lines 535-541). -/

inductive NVal (T : Type) where
  | str (s : String)
  | host (t : T)
  deriving DecidableEq

inductive NodeValue (T : Type) where
  | single (v : NVal T)
  | arr (vs : List (NVal T))
  deriving DecidableEq

inductive MTag where
  | leafTag
  | fragmentTag
  | portalTag
  | hostTag (name : Nat)
  | componentTag (f : Nat)
  deriving DecidableEq

structure NodeCore (T : Type) where
  id : Nat
  tag : MTag
  internal : Bool
  value : Option (NodeValue T)
  dirty : Bool
  moved : Bool
  copied : Bool
  dirtyStart : Option Nat
  deriving DecidableEq

structure RNode (T : Type) where
  core : NodeCore T
  alts : List (NodeCore T)
  deriving DecidableEq

/-- The node a commit pass actually reads: the end of the alternate chain
(lines 536-541), or the node itself when no alternate is pending. -/
def effCore {T : Type} (n : RNode T) : NodeCore T := n.alts.getLastD n.core

/-- The `typeof child.value === "string"` test (line 543). -/
def isStringValue {T : Type} : Option (NodeValue T) → Option String
  | some (NodeValue.single (NVal.str s)) => some s
  | _ => none

structure CommitAcc (T : Type) where
  buffer : Option String
  childValues : List (NVal T)
  oldLength : Nat
  dirty : Bool
  dirtyStart : Option Nat
  deriving DecidableEq

/-- The backwards scan at lines 567-576: the greatest index below the given
bound whose accumulated value is not a string (an out-of-range read is
`undefined`, which also passes the not-a-string test). -/
def lastNonString {T : Type} (vals : List (NVal T)) : Nat → Option Nat
  | 0 => none
  | j + 1 =>
    match vals.get? j with
    | some (NVal.str _) => lastNonString vals j
    | _ => some j

/-- Value accumulation for one child (lines 543-556): a string value extends
the text buffer — this test precedes the Portal test; any other value of a
non-Portal child first flushes the buffer, then splices an array value or
pushes a single one; non-string values of Portal children are skipped. -/
def valueStep {T : Type} (cv : List (NVal T)) (buf : Option String)
    (eff : NodeCore T) : List (NVal T) × Option String :=
  match isStringValue eff.value with
  | some s => (cv, some (buf.getD "" ++ s))
  | none =>
    if eff.tag = MTag.portalTag then (cv, buf)
    else
      let flushedCv :=
        match buf with
        | some b => cv ++ [NVal.str b]
        | none => cv
      match eff.value with
      | some (NodeValue.arr vs) => (flushedCv ++ vs, none)
      | some (NodeValue.single w) => (flushedCv ++ [w], none)
      | none => (flushedCv, none)

/-- One iteration of the `commitChildren` loop (lines 530-594) over the
resolved node `effCore child`: value accumulation, then the parent dirty
flag and `dirtyStart` hint (lines 558-581), then clearing the processed
node's flags (lines 583-588) and recording the new length (line 590). -/
def commitStep {T : Type} (acc : CommitAcc T) (child : RNode T) :
    CommitAcc T × RNode T :=
  let eff := effCore child
  let vb := valueStep acc.childValues acc.buffer eff
  let acc1 := { acc with childValues := vb.1, buffer := vb.2 }
  let acc2 :=
    if eff.dirty || (eff.internal && eff.moved) then
      if !acc1.dirty then
        let ds :=
          match eff.internal, eff.moved, eff.dirtyStart with
          | true, false, some d => some (acc.oldLength + d)
          | _, _, _ =>
            match lastNonString acc1.childValues acc.oldLength with
            | some j => some j
            | none => acc1.dirtyStart
        { acc1 with dirty := true, dirtyStart := ds }
      else acc1
    else acc1
  let effCleared :=
    { eff with
      dirty := false
      copied := if eff.internal then false else eff.copied
      moved := if eff.internal then false else eff.moved
      dirtyStart := if eff.internal then none else eff.dirtyStart }
  let child1 :=
    match child.alts with
    | [] => { child with core := effCleared }
    | _ => { child with alts := child.alts.dropLast ++ [effCleared] }
  ({ acc2 with oldLength := acc2.childValues.length }, child1)

/-- Model of `ParentNode.commitChildren` (lines 526-605): fold the loop over
the children, flush the trailing buffer (lines 596-598), and mark the parent
dirty when it has no children (lines 600-602). -/
def commitChildren {T : Type} (children : List (RNode T)) (dirty0 : Bool)
    (dirtyStart0 : Option Nat) : CommitAcc T × List (RNode T) :=
  let start : CommitAcc T :=
    { buffer := none, childValues := [], oldLength := 0,
      dirty := dirty0, dirtyStart := dirtyStart0 }
  let step := fun (p : CommitAcc T × List (RNode T)) (c : RNode T) =>
    let q := commitStep p.1 c
    (q.1, p.2 ++ [q.2])
  let folded := children.foldl step (start, [])
  let flushed :=
    match folded.1.buffer with
    | some b => { folded.1 with childValues := folded.1.childValues ++ [NVal.str b], buffer := none }
    | none => folded.1
  let final := if children.isEmpty then { flushed with dirty := true } else flushed
  (final, folded.2)

/-- The committed child-value sequence of a parent. -/
def commitChildrenValues {T : Type} (children : List (RNode T)) : List (NVal T) :=
  (commitChildren children false none).1.childValues

/-- Specification-side description of the committed child-value sequence, as
forced by the behaviour of `commitChildren`: walking left to right, every
maximal run of adjacent string-VALUED children (regardless of tag, so
Portal children whose committed value is a string are treated as text) is
concatenated into one merged string; a non-string-valued Portal child
contributes nothing; any other child flushes the current run and splices
its array value (whose own string entries are passed through unmerged) or
pushes its single value. -/
def mergedTextRuns {T : Type} (buf : Option String) : List (RNode T) → List (NVal T)
  | [] =>
    match buf with
    | some b => [NVal.str b]
    | none => []
  | c :: rest =>
    let eff := effCore c
    match isStringValue eff.value with
    | some s => mergedTextRuns (some (buf.getD "" ++ s)) rest
    | none =>
      if eff.tag = MTag.portalTag then mergedTextRuns buf rest
      else
        let flushed :=
          match buf with
          | some b => [NVal.str b]
          | none => []
        let items :=
          match eff.value with
          | some (NodeValue.arr vs) => vs
          | some (NodeValue.single w) => [w]
          | none => []
        flushed ++ items ++ mergedTextRuns none rest

theorem commitStep_childValues {T : Type} (acc : CommitAcc T) (c : RNode T) :
    (commitStep acc c).1.childValues = (valueStep acc.childValues acc.buffer (effCore c)).1 ∧
    (commitStep acc c).1.buffer = (valueStep acc.childValues acc.buffer (effCore c)).2 := by
  simp only [commitStep]
  constructor <;> (split <;> first | rfl | (split <;> rfl))

def flushList {T : Type} : Option String → List (NVal T)
  | some b => [NVal.str b]
  | none => []

theorem commit_fold_values {T : Type} (cs : List (RNode T)) :
    ∀ (acc : CommitAcc T) (done : List (RNode T)),
      (cs.foldl (fun (p : CommitAcc T × List (RNode T)) (c : RNode T) =>
          let q := commitStep p.1 c
          (q.1, p.2 ++ [q.2])) (acc, done)).1.childValues ++
        flushList ((cs.foldl (fun (p : CommitAcc T × List (RNode T)) (c : RNode T) =>
          let q := commitStep p.1 c
          (q.1, p.2 ++ [q.2])) (acc, done)).1.buffer)
      = acc.childValues ++ mergedTextRuns acc.buffer cs := by
  induction cs with
  | nil =>
    intro acc done
    cases hb : acc.buffer <;> simp [mergedTextRuns, flushList, hb]
  | cons c rest ih =>
    intro acc done
    simp only [List.foldl_cons]
    rw [ih]
    have hcv := (commitStep_childValues acc c).1
    have hbf := (commitStep_childValues acc c).2
    rw [hcv, hbf]
    cases his : isStringValue (effCore c).value with
    | some s =>
      simp [mergedTextRuns, valueStep, his]
    | none =>
      by_cases ht : (effCore c).tag = MTag.portalTag
      · simp [mergedTextRuns, valueStep, his, ht]
      · cases hv : (effCore c).value with
        | none =>
          cases hb : acc.buffer <;>
            simp [mergedTextRuns, valueStep, isStringValue, his, ht, hv, hb, flushList]
        | some nv =>
          cases nv with
          | arr vs =>
            cases hb : acc.buffer <;>
              simp [mergedTextRuns, valueStep, isStringValue, his, ht, hv, hb, flushList]
          | single w =>
            rw [hv] at his
            cases hb : acc.buffer <;> cases w <;>
              simp_all [mergedTextRuns, valueStep, isStringValue, ht, hv, hb, flushList]

theorem commitChildrenValues_eq_mergedTextRuns {T : Type} (cs : List (RNode T)) :
    commitChildrenValues cs = mergedTextRuns none cs := by
  have h := commit_fold_values cs
    { buffer := none, childValues := [], oldLength := 0, dirty := false, dirtyStart := none } []
  simp only [commitChildrenValues, commitChildren]
  cases hb : (cs.foldl (fun (p : CommitAcc T × List (RNode T)) (c : RNode T) =>
      let q := commitStep p.1 c
      (q.1, p.2 ++ [q.2]))
      ({ buffer := none, childValues := [], oldLength := 0, dirty := false,
         dirtyStart := none }, [])).1.buffer with
  | none =>
    rw [hb] at h
    simp only [flushList, List.append_nil, List.nil_append] at h
    split <;> simp [hb, h]
  | some b =>
    rw [hb] at h
    simp only [flushList, List.nil_append] at h
    split <;> simp [hb, ← h]

/-- Leaf text node holding a committed string. -/
def mkTextLeaf {T : Type} (nid : Nat) (s : String) : RNode T :=
  ⟨{ id := nid, tag := MTag.leafTag, internal := false,
     value := some (NodeValue.single (NVal.str s)), dirty := false,
     moved := false, copied := false, dirtyStart := none }, []⟩

/-- Portal host node whose committed value is a string (possible whenever the
backend value type admits strings, e.g. a string renderer). -/
def c5portalStr : RNode Nat :=
  ⟨{ id := 1, tag := MTag.portalTag, internal := true,
     value := some (NodeValue.single (NVal.str "p")), dirty := false,
     moved := false, copied := false, dirtyStart := none }, []⟩

/-- Fragment node whose committed value is a multi-value sequence starting
with a string. -/
def c5fragArr : RNode Nat :=
  ⟨{ id := 2, tag := MTag.fragmentTag, internal := true,
     value := some (NodeValue.arr [NVal.str "bar", NVal.host 0]), dirty := false,
     moved := false, copied := false, dirtyStart := none }, []⟩

/-- True when two adjacent entries of the sequence are both strings. -/
def hasAdjacentStrs {T : Type} : List (NVal T) → Bool
  | NVal.str _ :: NVal.str _ :: _ => true
  | _ :: rest => hasAdjacentStrs rest
  | [] => false

/-- **C5 (counterexample).** The claim fails on `commitChildren` as written:
with children [text "foo", Portal valued "p", fragment valued ["bar", 0]]
the committed sequence is ["foop", "bar", 0] — the string-valued Portal
child contributed its value to the merged text (the string test at line 543
precedes the Portal test at line 545), and the output contains two adjacent
string entries, because an array-valued child is spliced without merging
into the run. -/
theorem C5_text_run_counterexample :
    commitChildrenValues [mkTextLeaf 0 "foo", c5portalStr, c5fragArr]
        = [NVal.str "foop", NVal.str "bar", NVal.host 0] ∧
    hasAdjacentStrs (commitChildrenValues [mkTextLeaf 0 "foo", c5portalStr, c5fragArr])
        = true ∧
    commitChildrenValues [mkTextLeaf 0 "foo", c5portalStr, c5fragArr]
        ≠ commitChildrenValues [mkTextLeaf 0 "foo", c5fragArr] := by
  refine ⟨by decide, by decide, by decide⟩

/-- **C5 (amended).** Text run merging at commit: the commit pass walks the
children left to right and concatenates every maximal run of adjacent
string-VALUED children into a single merged string — in particular
committing ["foo", "bar"] yields the single string "foobar" — but a
string-valued child tagged Portal joins the merged run like text, only
non-string-valued Portal children contribute nothing, and array-valued
children are spliced as-is, so their string entries may sit adjacent to a
merged run as separate entries.  Formally, the committed sequence equals
`mergedTextRuns`. -/
theorem C5_text_run_merging_amended (T : Type) :
    (∀ children : List (RNode T), commitChildrenValues children = mergedTextRuns none children) ∧
    commitChildrenValues [mkTextLeaf (T := T) 0 "foo", mkTextLeaf 1 "bar"]
      = [NVal.str "foobar"] := by
  constructor
  · exact commitChildrenValues_eq_mergedTextRuns
  · rw [commitChildrenValues_eq_mergedTextRuns]
    simp [mergedTextRuns, mkTextLeaf, effCore, isStringValue]

/-! ### Replacing a node whose tag differs

Model of the replace branch of `ParentNode.updateChildren`
(src/src/index.ts lines 425-467): a new node is created and its update
begun; `replaceChild` swaps it into the sibling list immediately.  If the
new node's update is synchronous (`result1 === undefined`), the old node is
unmounted at once (when internal).  If it is asynchronous, the old node
becomes the new node's `alternate` — so commits keep reading its committed
value via `effCore` — and a continuation on the update's settlement
unmounts every internal node along the alternate chain and clears the
link. -/

inductive REff where
  | unmountEff (id : Nat)
  deriving DecidableEq

/-- The replace branch at the moment of the `updateChildren` pass.
`resultAsync` states whether the new node's freshly begun update returned a
pending promise. -/
def replaceChildStep {T : Type} (old : RNode T) (newCore : NodeCore T)
    (resultAsync : Bool) : RNode T × List REff :=
  if resultAsync then
    ({ core := newCore, alts := old.core :: old.alts }, [])
  else
    ({ core := newCore, alts := [] },
      if old.core.internal then [REff.unmountEff old.core.id] else [])

/-- The continuation at lines 446-460, run when the new node's first update
settles: every internal node along the alternate chain is unmounted and the
alternate link is cleared. -/
def settleReplace {T : Type} (n : RNode T) : RNode T × List REff :=
  ({ n with alts := [] },
    (n.alts.filter (fun c => c.internal)).map (fun c => REff.unmountEff c.id))

theorem effCore_alt_chain {T : Type} (old : RNode T) (newCore : NodeCore T) :
    effCore ⟨newCore, old.core :: old.alts⟩ = effCore old :=
  List.getLastD_cons newCore old.core old.alts

/-- **C3.** Async replace safety: on a tag mismatch a new node is created
and swapped in; when its first update is synchronous the old (internal)
node is unmounted immediately; when it is asynchronous, nothing is
unmounted at the time of the pass, the old node is retained as the new
node's alternate, the parent's commit still reads the old node's committed
value (the committed sequence is unchanged), and once the update settles
the old node is unmounted and the alternate link cleared. -/
theorem C3_async_replace_safety {T : Type} (old : RNode T) (newCore : NodeCore T) :
    ((replaceChildStep old newCore false).2
        = (if old.core.internal then [REff.unmountEff old.core.id] else []) ∧
      (replaceChildStep old newCore false).1.alts = []) ∧
    ((replaceChildStep old newCore true).2 = [] ∧
      (replaceChildStep old newCore true).1.alts = old.core :: old.alts ∧
      effCore (replaceChildStep old newCore true).1 = effCore old ∧
      commitChildrenValues [(replaceChildStep old newCore true).1]
        = commitChildrenValues [old]) ∧
    ((settleReplace (replaceChildStep old newCore true).1).1.alts = [] ∧
      (old.core.internal = true →
        REff.unmountEff old.core.id ∈ (settleReplace (replaceChildStep old newCore true).1).2)) := by
  refine ⟨⟨rfl, rfl⟩, ⟨rfl, rfl, ?_, ?_⟩, ⟨rfl, ?_⟩⟩
  · exact effCore_alt_chain old newCore
  · rw [commitChildrenValues_eq_mergedTextRuns, commitChildrenValues_eq_mergedTextRuns]
    have h : effCore (replaceChildStep old newCore true).1 = effCore old :=
      effCore_alt_chain old newCore
    simp [mergedTextRuns, h]
  · intro hint
    simp [settleReplace, replaceChildStep, List.mem_filter, hint]

theorem C3_async_replace_safety_witness :
    REff.unmountEff 5 ∈ (settleReplace (replaceChildStep
        (⟨{ id := 5, tag := MTag.hostTag 0, internal := true, value := none,
            dirty := false, moved := false, copied := false, dirtyStart := none }, []⟩ : RNode Nat)
        { id := 6, tag := MTag.hostTag 1, internal := true, value := none,
          dirty := false, moved := false, copied := false, dirtyStart := none }
        true).1).2 :=
  (C3_async_replace_safety
      (⟨{ id := 5, tag := MTag.hostTag 0, internal := true, value := none,
          dirty := false, moved := false, copied := false, dirtyStart := none }, []⟩ : RNode Nat)
      { id := 6, tag := MTag.hostTag 1, internal := true, value := none,
        dirty := false, moved := false, copied := false, dirtyStart := none }).2.2.2 rfl

/-! ### Component scheduler: `run`, `step`, `advance`, `refresh`

Model of `ComponentNode.run` (src/src/index.ts lines 907-931), `advance`
(lines 1027-1041) and `refresh` (lines 862-882); the variant `run`/`advance`
(src/unnamed/part_000 lines 1034-1062, 1167-1181) has the same structure.
Promises are identifiers drawn from a counter; `step()` is abstracted to
bumping `stepCount` and allocating its pending/result promises — whether
the step's driving promise is pending is the parameter `stepAsync`.  The
result identifier stands for the step's result, whether immediate or a
promise. -/

inductive CompType where
  | syncFn
  | asyncFn
  | syncGen
  | asyncGen
  deriving DecidableEq

structure SchedState where
  componentType : Option CompType
  inflightPending : Option Nat
  inflightResult : Option Nat
  enqueuedPending : Option Nat
  enqueuedResult : Option Nat
  finished : Bool
  stepping : Bool
  unmounted : Bool
  available : Bool
  onProps : Bool
  stepCount : Nat
  commitCount : Nat
  nextId : Nat
  deriving DecidableEq

/-- Abstracted `step()` (lines 933-1025): a finished component steps to
`[undefined, undefined]` (lines 934-936); otherwise the component callable
or iterator is driven once — counted by `stepCount` — yielding a pending
promise only when the step is asynchronous, and a result token. -/
def stepM (s : SchedState) (stepAsync : Bool) : SchedState × Option Nat × Option Nat :=
  if s.finished then (s, none, none)
  else
    ({ s with stepCount := s.stepCount + 1, nextId := s.nextId + 2 },
      (if stepAsync then some s.nextId else none), some (s.nextId + 1))

/-- Model of `run()` (lines 907-931). -/
def runM (s : SchedState) (stepAsync : Bool) : SchedState × Option Nat :=
  match s.inflightPending with
  | none =>
    let q := stepM s stepAsync
    let s1 := q.1
    let s2 :=
      match q.2.1 with
      | some p => { s1 with inflightPending := some p }
      | none => s1
    let s3 := { s2 with inflightResult := q.2.2 }
    (s3, s3.inflightResult)
  | some _ =>
    if s.componentType = some CompType.asyncGen then
      (s, s.inflightResult)
    else
      match s.enqueuedPending with
      | none =>
        let s1 :=
          { s with
            enqueuedPending := some s.nextId
            enqueuedResult := some (s.nextId + 1)
            nextId := s.nextId + 2 }
        (s1, s1.enqueuedResult)
      | some _ => (s, s.enqueuedResult)

/-- Settlement of the inflight step's driving promise: `advance()` (lines
1027-1041) moves the enqueued slot into the inflight slot; the thunk that
`run` chained onto the inflight pending then executes the deferred
`step()`; for an unfinished async generator, `advance` re-runs immediately
(lines 1032-1040). -/
def settleInflight (s : SchedState) (stepAsync : Bool) : SchedState :=
  let s1 :=
    { s with
      inflightPending := s.enqueuedPending
      inflightResult := s.enqueuedResult
      enqueuedPending := none
      enqueuedResult := none }
  let s2 :=
    match s.enqueuedPending with
    | some _ => (stepM s1 stepAsync).1
    | none => s1
  if s2.componentType = some CompType.asyncGen && !s2.finished then
    (runM s2 stepAsync).1
  else s2

/-- Model of `refresh()` (lines 862-882): a stepping or unmounted node
returns `undefined` immediately; otherwise waiting props are handed over
(or marked available), `run()` is invoked, and `commit` runs now (sync
result) or is chained onto the result. -/
def refreshM (s : SchedState) (stepAsync : Bool) : SchedState × Option Nat :=
  if s.stepping || s.unmounted then (s, none)
  else
    let s1 := if s.onProps then { s with onProps := false } else { s with available := true }
    let q := runM s1 stepAsync
    match q.2 with
    | none => ({ q.1 with commitCount := q.1.commitCount + 1 }, none)
    | some r => (q.1, some r)

/-- **C2.** In-flight coalescing of component runs: while a previous step's
driving promise is unresolved, `run()` never steps the component at call
time; for a non-async-generator component the first overlapping call
enqueues exactly one extra step slot and returns its result promise, every
further overlapping call returns that same promise with no state change,
and the enqueued step executes when the inflight step settles; an
async-generator component instead gets back the currently inflight result
with nothing enqueued. -/
theorem C2_run_inflight_coalescing (s : SchedState) (b b2 : Bool) (p : Nat)
    (h : s.inflightPending = some p) :
    (s.componentType = some CompType.asyncGen → runM s b = (s, s.inflightResult)) ∧
    ((runM s b).1.stepCount = s.stepCount) ∧
    (s.componentType ≠ some CompType.asyncGen →
      (s.enqueuedPending = none →
        (runM s b).1.enqueuedPending.isSome ∧
        (runM s b).2 = (runM s b).1.enqueuedResult ∧
        runM (runM s b).1 b2 = ((runM s b).1, (runM s b).1.enqueuedResult)) ∧
      (s.enqueuedPending.isSome → runM s b = (s, s.enqueuedResult)) ∧
      (s.enqueuedPending.isSome → s.finished = false →
        (settleInflight s b).stepCount = s.stepCount + 1)) := by
  refine ⟨?_, ?_, ?_⟩
  · intro hag
    simp [runM, h, hag]
  · by_cases hag : s.componentType = some CompType.asyncGen
    · simp [runM, h, hag]
    · cases he : s.enqueuedPending with
      | none => simp [runM, h, hag, he]
      | some e => simp [runM, h, hag, he]
  · intro hag
    refine ⟨?_, ?_, ?_⟩
    · intro he
      refine ⟨by simp [runM, h, hag, he], by simp [runM, h, hag, he], ?_⟩
      simp [runM, h, hag, he]
    · intro he
      cases hee : s.enqueuedPending with
      | none => rw [hee] at he; cases he
      | some e => simp [runM, h, hag, hee]
    · intro he hf
      cases hee : s.enqueuedPending with
      | none => rw [hee] at he; cases he
      | some e =>
        simp only [settleInflight, hee]
        have hf1 : ({ s with
            inflightPending := s.enqueuedPending
            inflightResult := s.enqueuedResult
            enqueuedPending := none
            enqueuedResult := none } : SchedState).finished = false := hf
        simp [stepM, hf1, hag, hf]

def c2busyState : SchedState :=
  { componentType := some CompType.syncGen
    inflightPending := some 0
    inflightResult := some 1
    enqueuedPending := none
    enqueuedResult := none
    finished := false
    stepping := false
    unmounted := false
    available := false
    onProps := false
    stepCount := 1
    commitCount := 0
    nextId := 2 }

theorem C2_run_inflight_coalescing_witness :
    (runM c2busyState true).1.stepCount = 1 :=
  (C2_run_inflight_coalescing c2busyState true true 0 rfl).2.1

/-- **C9.** `refresh()` on an unmounted component node — and likewise while
the stepping guard is set — is a silent no-op: it returns `undefined`
without stepping the component, without invoking the user callable, and
without changing any node state. -/
theorem C9_refresh_unmounted_noop (s : SchedState) (b : Bool)
    (h : s.stepping = true ∨ s.unmounted = true) :
    refreshM s b = (s, none) := by
  rcases h with h | h <;> simp [refreshM, h]

def c9unmountedState : SchedState :=
  { componentType := some CompType.syncGen
    inflightPending := none
    inflightResult := none
    enqueuedPending := none
    enqueuedResult := none
    finished := false
    stepping := false
    unmounted := true
    available := false
    onProps := false
    stepCount := 3
    commitCount := 1
    nextId := 9 }

theorem C9_refresh_unmounted_noop_witness :
    refreshM c9unmountedState false = (c9unmountedState, none) :=
  C9_refresh_unmounted_noop c9unmountedState false (Or.inr rfl)

/-! ### Overlapping `updateChildren` calls: the `onNewResult` race

Model of the asynchronous tail of `ParentNode.updateChildren`
(src/src/index.ts lines 505-519; identically src/unnamed/part_000 lines
578-593).  An `update` event stands for an `updateChildren` call on the
node: the pass synchronously realigns the children (`current` becomes the
call's index), any previous call's race promise `onNewResult` is resolved
with the new result (lines 505-508), and when the aggregate child result is
pending, a commit continuation is chained onto it (line 511) and a fresh
race promise installed (lines 512-516); a synchronous aggregate commits on
the spot (line 519).  A `settleAgg` event is the settlement of a call's
aggregate: its commit continuation then runs against the live children.
`commits` logs, for every `commit()` invocation, which call's children were
current at that moment. -/

inductive REv where
  | update (idx : Nat) (isAsync : Bool)
  | settleAgg (idx : Nat)
  deriving DecidableEq

structure RaceState where
  current : Nat
  onNewResult : Option Nat
  pendingAgg : List Nat
  commits : List Nat
  raceResolved : List (Nat × Nat)
  deriving DecidableEq

def raceStep (s : RaceState) : REv → RaceState
  | REv.update idx isAsync =>
    let s1 := { s with current := idx }
    let s2 :=
      match s1.onNewResult with
      | some j => { s1 with raceResolved := s1.raceResolved ++ [(j, idx)], onNewResult := none }
      | none => s1
    if isAsync then
      { s2 with pendingAgg := s2.pendingAgg ++ [idx], onNewResult := some idx }
    else
      { s2 with commits := s2.commits ++ [s2.current] }
  | REv.settleAgg idx =>
    if idx ∈ s.pendingAgg then
      { s with pendingAgg := s.pendingAgg.erase idx, commits := s.commits ++ [s.current] }
    else s

def raceRun (s : RaceState) : List REv → RaceState
  | [] => s
  | e :: rest => raceRun (raceStep s e) rest

def raceInit : RaceState :=
  { current := 0, onNewResult := none, pendingAgg := [], commits := [], raceResolved := [] }

/-- **C1 (counterexample).** The losing side's commit is NOT suppressed:
call 1 and call 2 overlap (both aggregates pending), call 2's aggregate
settles and commits, and when call 1's aggregate later settles its commit
continuation — still chained on the aggregate at line 511, with no
cancellation check — runs a second `commit()`.  There are two commit
invocations, not exactly one, the second being the first call's
continuation firing after the second call's commit. -/
theorem C1_race_counterexample :
    (raceRun raceInit
        [REv.update 1 true, REv.update 2 true, REv.settleAgg 2, REv.settleAgg 1]).commits
      = [2, 2] ∧
    (raceRun raceInit
        [REv.update 1 true, REv.update 2 true, REv.settleAgg 2, REv.settleAgg 1]).commits.length
      ≠ 1 := by
  refine ⟨by decide, by decide⟩

def updIndices : List REv → List Nat
  | [] => []
  | REv.update i _ :: rest => i :: updIndices rest
  | REv.settleAgg _ :: rest => updIndices rest

theorem raceRun_commits_subset (evs : List REv) :
    ∀ (s : RaceState) (S : List Nat), s.current ∈ S →
      (∀ i ∈ updIndices evs, i ∈ S) →
      ∃ tail, (raceRun s evs).commits = s.commits ++ tail ∧ ∀ x ∈ tail, x ∈ S := by
  induction evs with
  | nil =>
    intro s S _ _
    exact ⟨[], by simp [raceRun], by simp⟩
  | cons e rest ih =>
    intro s S hcur hupd
    cases e with
    | update idx isAsync =>
      have hidx : idx ∈ S := hupd idx (by simp [updIndices])
      have hupd1 : ∀ i ∈ updIndices rest, i ∈ S := fun i hi =>
        hupd i (by simp [updIndices, hi])
      cases hasync : isAsync with
      | true =>
        cases hon : s.onNewResult with
        | none =>
          obtain ⟨tail, ht, hm⟩ := ih (raceStep s (REv.update idx true)) S
            (by simp [raceStep, hon]; exact hidx) hupd1
          refine ⟨tail, ?_, hm⟩
          simpa [raceRun, raceStep, hon] using ht
        | some j =>
          obtain ⟨tail, ht, hm⟩ := ih (raceStep s (REv.update idx true)) S
            (by simp [raceStep, hon]; exact hidx) hupd1
          refine ⟨tail, ?_, hm⟩
          simpa [raceRun, raceStep, hon] using ht
      | false =>
        cases hon : s.onNewResult with
        | none =>
          obtain ⟨tail, ht, hm⟩ := ih (raceStep s (REv.update idx false)) S
            (by simp [raceStep, hon]; exact hidx) hupd1
          refine ⟨idx :: tail, ?_, ?_⟩
          · show (raceRun (raceStep s (REv.update idx false)) rest).commits
              = s.commits ++ idx :: tail
            rw [ht]
            simp [raceStep, hon]
          · intro x hx
            rcases List.mem_cons.mp hx with hx | hx
            · subst hx; exact hidx
            · exact hm x hx
        | some j =>
          obtain ⟨tail, ht, hm⟩ := ih (raceStep s (REv.update idx false)) S
            (by simp [raceStep, hon]; exact hidx) hupd1
          refine ⟨idx :: tail, ?_, ?_⟩
          · show (raceRun (raceStep s (REv.update idx false)) rest).commits
              = s.commits ++ idx :: tail
            rw [ht]
            simp [raceStep, hon]
          · intro x hx
            rcases List.mem_cons.mp hx with hx | hx
            · subst hx; exact hidx
            · exact hm x hx
    | settleAgg idx =>
      have hupd1 : ∀ i ∈ updIndices rest, i ∈ S := fun i hi =>
        hupd i (by simp [updIndices, hi])
      by_cases hmem : idx ∈ s.pendingAgg
      · obtain ⟨tail, ht, hm⟩ := ih (raceStep s (REv.settleAgg idx)) S
          (by simp [raceStep, hmem]; exact hcur) hupd1
        refine ⟨s.current :: tail, ?_, ?_⟩
        · show (raceRun (raceStep s (REv.settleAgg idx)) rest).commits
            = s.commits ++ s.current :: tail
          rw [ht]
          simp [raceStep, hmem]
        · intro x hx
          rcases List.mem_cons.mp hx with hx | hx
          · subst hx; exact hcur
          · exact hm x hx
      · obtain ⟨tail, ht, hm⟩ := ih (raceStep s (REv.settleAgg idx)) S
          (by simp [raceStep, hmem]; exact hcur) hupd1
        refine ⟨tail, ?_, hm⟩
        simpa [raceRun, raceStep, hmem] using ht

/-- **C1 (amended).** Last-begun-wins on overlapping child updates: when a
second `updateChildren` call begins while a previous call's aggregate is
pending, the previous call's race promise is resolved with the new result
at the start of the second call (the race-signal mechanism of the claim),
and the first call's returned promise is thereby pre-empted; the losing
commit continuation is NOT suppressed and still runs when its aggregate
settles, but every `commit()` reads the node's current children, so every
commit performed from a new call onward — including the loser's late
commit — reflects that call's children or a later call's, never an earlier
call's output. -/
theorem C1_last_begun_wins_amended (s : RaceState) (j idx : Nat) (b : Bool)
    (post : List REv) (hon : s.onNewResult = some j) :
    ((raceStep s (REv.update idx b)).raceResolved = s.raceResolved ++ [(j, idx)]) ∧
    ((raceStep s (REv.update idx b)).current = idx) ∧
    (∃ tail, (raceRun (raceStep s (REv.update idx b)) post).commits
        = (raceStep s (REv.update idx b)).commits ++ tail ∧
      ∀ x ∈ tail, x ∈ idx :: updIndices post) := by
  refine ⟨?_, ?_, ?_⟩
  · cases b <;> simp [raceStep, hon]
  · cases b <;> simp [raceStep, hon]
  · refine raceRun_commits_subset post (raceStep s (REv.update idx b)) (idx :: updIndices post)
      ?_ ?_
    · cases b <;> simp [raceStep, hon]
    · intro i hi
      exact List.mem_cons_of_mem _ hi

def c1overlapState : RaceState :=
  { current := 1
    onNewResult := some 1
    pendingAgg := [1]
    commits := []
    raceResolved := [] }

theorem C1_last_begun_wins_amended_witness :
    ((raceStep c1overlapState (REv.update 2 true)).raceResolved = [(1, 2)]) ∧
    ((raceStep c1overlapState (REv.update 2 true)).current = 2) ∧
    (∃ tail, (raceRun (raceStep c1overlapState (REv.update 2 true))
        [REv.settleAgg 2, REv.settleAgg 1]).commits
        = (raceStep c1overlapState (REv.update 2 true)).commits ++ tail ∧
      ∀ x ∈ tail, x ∈ 2 :: updIndices [REv.settleAgg 2, REv.settleAgg 1]) := by
  have h := C1_last_begun_wins_amended c1overlapState
    1 2 true [REv.settleAgg 2, REv.settleAgg 1] rfl
  simpa [c1overlapState] using h

/-! ### Child alignment: the `updateChildren` pass

Model of the alignment/update loop of `ParentNode.updateChildren`
(src/src/index.ts lines 323-503) on a pure view of the sibling linked
list: `done` holds the nodes before the cursor (already processed, or
skipped past this pass), `todo` the nodes from the cursor on.  `oldKeyed`
is `this.keyedChildren` (the map built by the previous pass), `newKeyed`
the local `keyedChildren` map being rebuilt.  Node updates are tracked
structurally; the asynchronous result plumbing of the same function is
modelled by `raceStep`, and asynchronous replacement by
`replaceChildStep` — here a tag mismatch replaces and unmounts the old
node in the synchronous way.  The source has no fatal path for this loop:
a key collision only erases the later child's key (a TODO comment marks
the missing warning), so the pass always completes. -/

inductive NChild where
  | undef
  | text (s : String)
  | elem (tag : Nat) (key : Option Nat)
  | copyChild (key : Option Nat)
  deriving DecidableEq

def childKey : NChild → Option Nat
  | NChild.elem _ k => k
  | NChild.copyChild k => k
  | _ => none

/-- The `tag` local of the loop (lines 332-333): `undefined` for strings
and undefined children.  (`copyChild` carries the Copy sentinel, which the
branches test for before any tag comparison.) -/
def childTag : NChild → Option Nat
  | NChild.elem t _ => some t
  | _ => none

structure UNode where
  id : Nat
  tag : Option Nat
  key : Option Nat
  internal : Bool
  value : Option String
  dirty : Bool
  moved : Bool
  copied : Bool
  deriving DecidableEq

/-- Model of `createNode` (lines 1243-1263): strings and undefined become
leaf nodes (no tag, no key); elements become internal nodes carrying the
element's own (undemoted) key.  It is never called with a Copy child (every
call site is guarded by a `tag === Copy` continue). -/
def createUNode (nid : Nat) : NChild → UNode
  | NChild.undef =>
    { id := nid, tag := none, key := none, internal := false,
      value := none, dirty := true, moved := false, copied := false }
  | NChild.text _ =>
    { id := nid, tag := none, key := none, internal := false,
      value := none, dirty := true, moved := false, copied := false }
  | NChild.elem t k =>
    { id := nid, tag := some t, key := k, internal := true,
      value := none, dirty := true, moved := true, copied := false }
  | NChild.copyChild k =>
    { id := nid, tag := none, key := k, internal := true,
      value := none, dirty := true, moved := true, copied := false }

structure AlignState where
  done : List UNode
  todo : List UNode
  oldKeyed : List (Nat × UNode)
  newKeyed : List (Nat × UNode)
  unmounted : List Nat
  nextId : Nat
  deriving DecidableEq

def removeById (l : List UNode) (nid : Nat) : List UNode :=
  l.filter (fun n => n.id != nid)

/-- Key-collision demotion (lines 335-342): a key already claimed in the
`keyedChildren` map being rebuilt this pass is treated as undefined. -/
def demoteKey (s : AlignState) : Option Nat → Option Nat
  | some k => if (lookupA s.newKeyed k).isSome then none else some k
  | none => none

/-- The updating stage (lines 402-467) for the aligned node, synchronous
view: Copy marks an internal node `copied`; an equal tag updates in place
(text recomputed and dirty-compared — the renderer text transform is the
identity here — and element updates tracked elsewhere); a differing tag
creates a replacement node and unmounts the old internal node (the
asynchronous alternate path is `replaceChildStep`/`settleReplace`). -/
def updateStage (s : AlignState) (c : NChild) (n : UNode) : AlignState × UNode :=
  match c with
  | NChild.copyChild _ =>
    if n.internal then (s, { n with copied := true }) else (s, n)
  | _ =>
    if n.tag = childTag c then
      match c with
      | NChild.text str =>
        (s, { n with dirty := n.value != some str, value := some str })
      | NChild.undef =>
        (s, { n with dirty := n.value.isSome, value := none })
      | _ => (s, n)
    else
      let newNode := createUNode s.nextId c
      let s1 :=
        { s with
          nextId := s.nextId + 1
          unmounted := if n.internal then s.unmounted ++ [n.id] else s.unmounted }
      (s1, newNode)

/-- Shared tail of each loop iteration: run the updating stage on the
aligned node, place the result at the cursor position (end of `done`),
advance the cursor (`node = node.nextSibling`, line 477), and claim the
key in the rebuilt map (lines 469-475) — `node` there is the post-update
node. -/
def finishUp (s : AlignState) (k : Option Nat) (c : NChild) (n : UNode)
    (newTodo : List UNode) : AlignState :=
  let q := updateStage s c n
  let s2 := { q.1 with done := q.1.done ++ [q.2], todo := newTodo }
  match k with
  | some key => { s2 with newKeyed := setA s2.newKeyed key q.2 }
  | none => s2

/-- Alignment for an (effectively) unkeyed child: skip the cursor past
keyed nodes (lines 387-399); if the list is exhausted, a Copy child is
skipped and any other child gets a fresh appended node (lines 344-351,
392-399); otherwise the unkeyed node at the cursor is reused. -/
def processUnkeyed (s : AlignState) (c : NChild) : AlignState :=
  let skipped := s.todo.takeWhile (fun n => n.key.isSome)
  let rest' := s.todo.dropWhile (fun n => n.key.isSome)
  let s1 := { s with done := s.done ++ skipped, todo := rest' }
  match rest' with
  | [] =>
    match c with
    | NChild.copyChild _ => s1
    | _ =>
      let n := createUNode s1.nextId c
      finishUp { s1 with nextId := s1.nextId + 1 } none c n []
  | h :: t => finishUp s1 none c h t

/-- Alignment for a keyed child (lines 352-367 when the cursor is
exhausted, 368-386 otherwise): a miss on the previous pass's keyed map
skips a Copy child and otherwise creates a node at the cursor position; a
hit claims the node (deleting its map entry), marking it `moved` and
relinking it to the cursor position unless it already sits there. -/
def processKeyed (s : AlignState) (key : Nat) (c : NChild) : AlignState :=
  match lookupA s.oldKeyed key with
  | none =>
    match c with
    | NChild.copyChild _ => s
    | _ =>
      let n := createUNode s.nextId c
      finishUp { s with nextId := s.nextId + 1 } (some key) c n s.todo
  | some kn =>
    match s.todo with
    | [] =>
      let s1 :=
        { s with
          oldKeyed := eraseA s.oldKeyed key
          done := removeById s.done kn.id
          todo := [] }
      finishUp s1 (some key) c { kn with moved := true } []
    | node :: rest =>
      if node.id = kn.id then
        finishUp { s with oldKeyed := eraseA s.oldKeyed key } (some key) c kn rest
      else
        let s1 :=
          { s with
            oldKeyed := eraseA s.oldKeyed key
            done := removeById s.done kn.id
            todo := node :: removeById rest kn.id }
        finishUp s1 (some key) c { kn with moved := true } s1.todo

/-- One iteration of the `updateChildren` loop: demote a colliding key,
then align positionally (key undefined) or through the keyed map. -/
def processChild (s : AlignState) (c : NChild) : AlignState :=
  match demoteKey s (childKey c) with
  | none => processUnkeyed s c
  | some key => processKeyed s key c

def alignPass (s : AlignState) : List NChild → AlignState
  | [] => s
  | c :: rest => alignPass (processChild s c) rest

/-- The trim after the pass (lines 480-501): remaining unkeyed nodes past
the cursor are unmounted (internal ones) and unlinked; keyed nodes never
claimed this pass are unmounted and unlinked wherever they sit. -/
def trimPass (s : AlignState) : AlignState :=
  let keptTodo := s.todo.filter (fun (n : UNode) => n.key.isSome)
  let droppedUnkeyed := s.todo.filter (fun (n : UNode) => n.key.isNone)
  let s1 :=
    { s with
      todo := keptTodo
      unmounted := s.unmounted ++
        (droppedUnkeyed.filter (fun (n : UNode) => n.internal)).map
          (fun (n : UNode) => n.id) }
  let leftovers := s1.oldKeyed.map (fun (p : Nat × UNode) => p.2)
  { s1 with
    done := leftovers.foldl (fun l (n : UNode) => removeById l n.id) s1.done
    todo := leftovers.foldl (fun l (n : UNode) => removeById l n.id) s1.todo
    unmounted := s1.unmounted ++ leftovers.map (fun (n : UNode) => n.id)
    oldKeyed := [] }

/-- Model of one whole `updateChildren` pass over an already-flattened
child sequence: the local keyed map starts empty (line 325), the loop
runs, the trim removes stale nodes, and the rebuilt map is installed
(line 503). -/
def updateChildrenAlign (s : AlignState) (children : List NChild) : AlignState :=
  let s1 := alignPass { s with newKeyed := [] } children
  let s2 := trimPass s1
  { s2 with oldKeyed := s2.newKeyed, newKeyed := [] }

theorem updateStage_maps (s : AlignState) (c : NChild) (n : UNode) :
    (updateStage s c n).1.newKeyed = s.newKeyed ∧
    (updateStage s c n).1.oldKeyed = s.oldKeyed := by
  cases c <;> simp only [updateStage] <;> split <;> exact ⟨rfl, rfl⟩

theorem finishUp_none_maps (s : AlignState) (c : NChild) (n : UNode)
    (newTodo : List UNode) :
    (finishUp s none c n newTodo).newKeyed = s.newKeyed ∧
    (finishUp s none c n newTodo).oldKeyed = s.oldKeyed := by
  simp only [finishUp]
  exact ⟨(updateStage_maps s c n).1, (updateStage_maps s c n).2⟩

theorem processUnkeyed_maps (s : AlignState) (c : NChild) :
    (processUnkeyed s c).newKeyed = s.newKeyed ∧
    (processUnkeyed s c).oldKeyed = s.oldKeyed := by
  simp only [processUnkeyed]
  split
  · split
    · exact ⟨rfl, rfl⟩
    all_goals {
      rename_i heq
      refine ⟨?_, ?_⟩
      · exact (finishUp_none_maps _ _ _ _).1
      · exact (finishUp_none_maps _ _ _ _).2 }
  · refine ⟨(finishUp_none_maps _ _ _ _).1, (finishUp_none_maps _ _ _ _).2⟩

theorem finishUp_some_newKeyed (s : AlignState) (key : Nat) (c : NChild) (n : UNode)
    (newTodo : List UNode) :
    (finishUp s (some key) c n newTodo).newKeyed
      = setA s.newKeyed key (updateStage s c n).2 := by
  simp only [finishUp]
  rw [(updateStage_maps s c n).1]

theorem processKeyed_newKeyed_ne (s : AlignState) (key : Nat) (c : NChild) (k : Nat)
    (hne : k ≠ key) :
    lookupA (processKeyed s key c).newKeyed k = lookupA s.newKeyed k := by
  simp only [processKeyed]
  split
  · split
    · rfl
    all_goals (rw [finishUp_some_newKeyed]; exact lookupA_setA_ne _ _ _ _ hne)
  · split
    · rw [finishUp_some_newKeyed]
      exact lookupA_setA_ne _ _ _ _ hne
    · split
      · rw [finishUp_some_newKeyed]
        exact lookupA_setA_ne _ _ _ _ hne
      · rw [finishUp_some_newKeyed]
        exact lookupA_setA_ne _ _ _ _ hne

theorem processChild_preserves_claimed (s : AlignState) (c : NChild) (k : Nat)
    (h : (lookupA s.newKeyed k).isSome) :
    lookupA (processChild s c).newKeyed k = lookupA s.newKeyed k := by
  simp only [processChild]
  cases hd : demoteKey s (childKey c) with
  | none => rw [(processUnkeyed_maps s c).1]
  | some key =>
    have hne : k ≠ key := by
      intro hkk
      subst hkk
      cases hck : childKey c with
      | none => rw [hck] at hd; cases hd
      | some k2 =>
        rw [hck] at hd
        simp only [demoteKey] at hd
        by_cases h2 : (lookupA s.newKeyed k2).isSome
        · rw [if_pos h2] at hd; cases hd
        · rw [if_neg h2] at hd
          cases hd
          exact h2 h
    exact processKeyed_newKeyed_ne s key c k hne

theorem alignPass_preserves_claimed (cs : List NChild) :
    ∀ (s : AlignState) (k : Nat), (lookupA s.newKeyed k).isSome →
      lookupA (alignPass s cs).newKeyed k = lookupA s.newKeyed k := by
  induction cs with
  | nil => intro s k _; rfl
  | cons c rest ih =>
    intro s k h
    show lookupA (alignPass (processChild s c) rest).newKeyed k = lookupA s.newKeyed k
    have hstep := processChild_preserves_claimed s c k h
    have h2 : (lookupA (processChild s c).newKeyed k).isSome := by rw [hstep]; exact h
    rw [ih (processChild s c) k h2, hstep]

/-- **C7.** Key collision demotion: a child whose key is already claimed in
the map being rebuilt this pass is processed exactly as if it were unkeyed
(positional alignment; the keyed maps are untouched by it), the pass
completes — the model, like the source, has no error path for collisions —
and the first claimant keeps the key in the rebuilt keyed-children map for
the remainder of the pass. -/
theorem C7_key_collision_demotion (s : AlignState) (c : NChild) (k : Nat)
    (rest : List NChild) (hk : childKey c = some k)
    (hcoll : (lookupA s.newKeyed k).isSome) :
    processChild s c = processUnkeyed s c ∧
    (processChild s c).newKeyed = s.newKeyed ∧
    (processChild s c).oldKeyed = s.oldKeyed ∧
    lookupA (alignPass s (c :: rest)).newKeyed k = lookupA s.newKeyed k := by
  have hd : demoteKey s (childKey c) = none := by
    rw [hk]
    simp [demoteKey, hcoll]
  refine ⟨?_, ?_, ?_, ?_⟩
  · simp [processChild, hd]
  · simp [processChild, hd, (processUnkeyed_maps s c).1]
  · simp [processChild, hd, (processUnkeyed_maps s c).2]
  · show lookupA (alignPass (processChild s c) rest).newKeyed k = lookupA s.newKeyed k
    have hstep := processChild_preserves_claimed s c k hcoll
    have h2 : (lookupA (processChild s c).newKeyed k).isSome := by rw [hstep]; exact hcoll
    rw [alignPass_preserves_claimed rest (processChild s c) k h2, hstep]

def c7firstClaim : UNode :=
  { id := 10, tag := some 3, key := some 5, internal := true,
    value := none, dirty := false, moved := false, copied := false }

def c7collState : AlignState :=
  { done := [], todo := [], oldKeyed := [], newKeyed := [(5, c7firstClaim)],
    unmounted := [], nextId := 11 }

theorem C7_key_collision_demotion_witness :
    processChild c7collState (NChild.elem 4 (some 5))
        = processUnkeyed c7collState (NChild.elem 4 (some 5)) ∧
    (processChild c7collState (NChild.elem 4 (some 5))).newKeyed = c7collState.newKeyed ∧
    (processChild c7collState (NChild.elem 4 (some 5))).oldKeyed = c7collState.oldKeyed ∧
    lookupA (alignPass c7collState [NChild.elem 4 (some 5), NChild.text "x"]).newKeyed 5
      = lookupA c7collState.newKeyed 5 :=
  C7_key_collision_demotion c7collState (NChild.elem 4 (some 5)) 5 [NChild.text "x"]
    rfl (by decide)

/-! ### Unmounting and root clearing

Model of `FragmentNode.unmount` (src/src/index.ts lines 663-670),
`HostNode.unmount` (lines 759-781), `ComponentNode.unmount` (lines
1075-1117) with synchronous iterator returns, and the `render(null, root)`
path of `Renderer.render` (lines 1396-1441).  A tree node carries the
fields those methods read; children lists hold the internal children
(`unmountChildren` only recurses into internal nodes).  Effects record
cleanup-callback batches and iterator `return()` invocations. -/

inductive VKind where
  | fragmentK
  | hostK (isPortal : Bool)
  | componentK
  deriving DecidableEq

structure VInfo where
  id : Nat
  kind : VKind
  unmounted : Bool
  finished : Bool
  hasIterator : Bool
  hasReturn : Bool
  hasCleanups : Bool
  deriving DecidableEq

inductive VTree where
  | node (info : VInfo) (children : List VTree)

inductive UEff where
  | cleanupRun (id : Nat)
  | genReturn (id : Nat)
  deriving DecidableEq

def VTree.rootInfo : VTree → VInfo
  | VTree.node i _ => i

/-- Recursive unmount.  Every variant returns immediately on an already
unmounted node.  Fragment: mark and unmount children.  Host: when not
finished, call the iterator's `return` if present, mark finished; then mark
unmounted and unmount children with the dirty bit `tag === Portal`.
Component: mark unmounted, run the registered cleanups, and only when not
finished — mark finished, call the iterator's `return` if present, and
unmount the children; an already-finished component does NOT unmount its
children (the `unmountChildren` call at line 1115 sits inside the
`if (!this.finished)` block). -/
def unmountTree (dirty : Bool) : VTree → VTree × List UEff
  | VTree.node i cs =>
    if i.unmounted then (VTree.node i cs, [])
    else
      match i.kind with
      | VKind.fragmentK =>
        let sub := cs.attach.map (fun ⟨c, _⟩ => unmountTree dirty c)
        (VTree.node { i with unmounted := true } (sub.map Prod.fst),
          (sub.map Prod.snd).flatten)
      | VKind.hostK isPortal =>
        let retEffs :=
          if !i.finished && i.hasIterator && i.hasReturn then [UEff.genReturn i.id] else []
        let sub := cs.attach.map (fun ⟨c, _⟩ => unmountTree isPortal c)
        (VTree.node { i with unmounted := true, finished := true } (sub.map Prod.fst),
          retEffs ++ (sub.map Prod.snd).flatten)
      | VKind.componentK =>
        let cleanEffs := if i.hasCleanups then [UEff.cleanupRun i.id] else []
        if i.finished then
          (VTree.node { i with unmounted := true, hasCleanups := false } cs, cleanEffs)
        else
          let retEffs :=
            if i.hasIterator && i.hasReturn then [UEff.genReturn i.id] else []
          let sub := cs.attach.map (fun ⟨c, _⟩ => unmountTree dirty c)
          (VTree.node { i with unmounted := true, finished := true, hasCleanups := false }
              (sub.map Prod.fst),
            cleanEffs ++ retEffs ++ (sub.map Prod.snd).flatten)

structure RendererState where
  cache : List (Nat × VTree)

/-- Model of `render(null, root)` on a previously rendered root (lines
1396-1441 with `children == null`): the portal wraps null, the cached root
node is found, the cache entry for the root is deleted (lines 1419-1421),
and the root node updates with empty children, which unmounts every
remaining child; the root portal itself keeps a non-null `root` prop and is
not unmounted. -/
def renderNull (rs : RendererState) (root : Nat) : RendererState × Option VTree × List UEff :=
  match lookupA rs.cache root with
  | none => (rs, none, [])
  | some t =>
    match t with
    | VTree.node i cs =>
      let sub := cs.map (unmountTree true)
      (⟨eraseA rs.cache root⟩, some (VTree.node i []), (sub.map Prod.snd).flatten)

/-- **C10.** Unmount is idempotent: a second `unmount` on an already
unmounted node (of any variant) returns immediately — the node and its
subtree are unchanged and no effect runs: cleanups are not run again, the
iterator's `return` entry point is not invoked a second time, and children
are not re-unmounted. -/
theorem C10_unmount_idempotent (t : VTree) (dirty : Bool)
    (h : t.rootInfo.unmounted = true) :
    unmountTree dirty t = (t, []) := by
  cases t with
  | node i cs =>
    have hi : i.unmounted = true := h
    simp [unmountTree, hi]

def c10doneInfo : VInfo :=
  { id := 4
    kind := VKind.componentK
    unmounted := true
    finished := false
    hasIterator := true
    hasReturn := true
    hasCleanups := true }

def c10childInfo : VInfo :=
  { id := 5
    kind := VKind.fragmentK
    unmounted := false
    finished := false
    hasIterator := false
    hasReturn := false
    hasCleanups := false }

theorem C10_unmount_idempotent_witness :
    unmountTree true (VTree.node c10doneInfo [VTree.node c10childInfo []])
      = (VTree.node c10doneInfo [VTree.node c10childInfo []], []) :=
  C10_unmount_idempotent (VTree.node c10doneInfo [VTree.node c10childInfo []]) true rfl

def c6bInfo : VInfo :=
  { id := 2
    kind := VKind.componentK
    unmounted := false
    finished := false
    hasIterator := true
    hasReturn := true
    hasCleanups := false }

def c6aInfo : VInfo :=
  { id := 1
    kind := VKind.componentK
    unmounted := false
    finished := true
    hasIterator := true
    hasReturn := true
    hasCleanups := false }

def c6portalInfo : VInfo :=
  { id := 0
    kind := VKind.hostK true
    unmounted := false
    finished := false
    hasIterator := false
    hasReturn := false
    hasCleanups := false }

/-- A previously rendered root: the root portal holds a finished
sync-generator component A whose last yielded child mounted a live
generator component B. -/
def c6tree : VTree :=
  VTree.node c6portalInfo [VTree.node c6aInfo [VTree.node c6bInfo []]]

def c6rs : RendererState := ⟨[(0, c6tree)]⟩

/-- **C6.** Round-trip clearing of a root, evaluated at the failing input:
`render(null, root)` does remove the cached mapping for the root, but the
tree is NOT fully unmounted — component A is already finished, so
`ComponentNode.unmount` skips `unmountChildren` entirely (the call at line
1115 sits inside `if (!this.finished)`), and the live generator component B
below it is never unmounted: its cancellation (`return`) entry point is
never invoked and no effect at all is produced. -/
theorem C6_round_trip_code_bug :
    (lookupA (renderNull c6rs 0).1.cache 0 = none) ∧
    ((renderNull c6rs 0).2.2 = []) ∧
    (unmountTree true (VTree.node c6aInfo [VTree.node c6bInfo []])
      = (VTree.node { c6aInfo with unmounted := true } [VTree.node c6bInfo []], [])) := by
  refine ⟨?_, ?_, ?_⟩
  · simp [renderNull, c6rs, c6tree, lookupA, eraseA]
  · simp [renderNull, c6rs, c6tree, lookupA, eraseA, unmountTree, c6aInfo]
  · simp [unmountTree, c6aInfo]
